import Mathlib

/-!
# Service worker `sw.js`: offline cache population, eviction and fetch fallback

A shallow embedding of `src/sw.js`.  Promises are modelled by their settled
outcome, the platform objects (`caches`, `fetch`, `location`, `console`) by an
explicit cache store that is passed through, an environment record and a trace
of the platform calls that were made.
-/

set_option autoImplicit false

namespace SW

/-! ## Platform data -/

/-- A stored or fetched response: its HTTP status and its body. -/
structure Response where
  status : Nat
  body : String
deriving DecidableEq, Repr

/-- The `ok` flag of a response: status in the range 200 to 299. -/
def Response.ok (r : Response) : Bool :=
  decide (200 ≤ r.status) && decide (r.status ≤ 299)

/-- The part of a `Request` that `sw.js` reads: `{ method, url }`. -/
structure Request where
  method : String
  url : String
deriving DecidableEq, Repr

/-- The settled outcome of a promise. -/
inductive Settled (α : Type) where
  | fulfilled (value : α)
  | rejected (reason : String)
deriving DecidableEq, Repr

/-- The outcome of `p.then(f)` for a callback `f` that returns a plain value. -/
def Settled.map {α β : Type} (f : α → β) : Settled α → Settled β
  | .fulfilled v => .fulfilled (f v)
  | .rejected e => .rejected e

/-- Whether a promise was fulfilled. -/
def Settled.isFulfilled {α : Type} : Settled α → Bool
  | .fulfilled _ => true
  | .rejected _ => false

/-- The outcome of `Promise.all`: the list of values when every promise is fulfilled, the first
rejection otherwise. -/
def promiseAll {α : Type} : List (Settled α) → Settled (List α)
  | [] => .fulfilled []
  | .rejected e :: _ => .rejected e
  | .fulfilled v :: rest =>
    match promiseAll rest with
    | .fulfilled vs => .fulfilled (v :: vs)
    | .rejected e => .rejected e

/-- A URL string without its fragment, that is up to the first `#`.  The platform leaves the
fragment out when it sends a request to the network and when it compares the URL of a request
with the URL of a cache entry. -/
def withoutFragment (url : String) : String :=
  ⟨url.data.takeWhile (fun c => c != '#')⟩

/-- One cache: request URL to stored response, in insertion order. -/
abbrev Cache := List (String × Response)

/-- The cache storage `caches`: cache name to cache, in creation order. -/
abbrev CacheStorage := List (String × Cache)

/-- The platform calls a handler makes, in order. -/
inductive Effect where
  | fetch (request : Request)
  | cachesOpen (name : String)
  | cacheAddAll (name : String) (urls : List String)
  | cachesKeys
  | cachesDelete (name : String)
  | cachesMatch (url : String)
  | log (msg : String)
deriving DecidableEq, Repr

/-- What the worker's surroundings supply: `location.origin`, the origin of a parsed URL
(`new URL(u).origin`), the answer of the network to a request, and the error (if any) with which
the deletion of a named cache rejects. -/
structure Env where
  origin : String
  urlOrigin : String → String
  network : Request → Settled Response
  deleteError : String → Option String

/-- The platform call `fetch(request)`: the network is asked for the URL of the request without
its fragment, which is never sent. -/
def Env.fetch (env : Env) (request : Request) : Settled Response :=
  env.network ⟨request.method, withoutFragment request.url⟩

/-- The absolute URL of a root-relative path such as `"/offline/"`, resolved against the worker's
own origin (every string key `sw.js` passes to the cache API is root-relative). -/
def Env.resolve (env : Env) (path : String) : String :=
  env.origin ++ path

/-! ## Regular expressions, as far as `sw.js` uses them -/

/-- The regular-expression constructs that occur in `/\.(jpe?g|png|gif|svg)$/`. -/
inductive RegExp where
  | char (c : Char)
  | seq (a b : RegExp)
  | alt (a b : RegExp)
  | opt (a : RegExp)
  | eoi
deriving Repr

/-- Backtracking matcher: `re.matchFrom s k` tries every way `re` matches a beginning of `s` and
asks the continuation `k` about the rest.  `eoi` is `$` without the `m` flag: end of input. -/
def RegExp.matchFrom : RegExp → List Char → (List Char → Bool) → Bool
  | .char c, s, k =>
    match s with
    | [] => false
    | x :: rest => x == c && k rest
  | .seq a b, s, k => a.matchFrom s (fun rest => b.matchFrom rest k)
  | .alt a b, s, k => a.matchFrom s k || b.matchFrom s k
  | .opt a, s, k => a.matchFrom s k || k s
  | .eoi, s, k => s.isEmpty && k s

/-- Whether `url.match(re)` is non-null for a regular expression without flags: the pattern
matches starting at some position of the string. -/
def RegExp.test (re : RegExp) (s : String) : Bool :=
  s.data.tails.any (fun t => re.matchFrom t (fun _ => true))

/-- The pattern `/\.(jpe?g|png|gif|svg)$/` of the fetch listener (no `i` flag). -/
def imagePattern : RegExp :=
  .seq (.char '.')
    (.seq
      (.alt (.seq (.char 'j') (.seq (.char 'p') (.seq (.opt (.char 'e')) (.char 'g'))))
        (.alt (.seq (.char 'p') (.seq (.char 'n') (.char 'g')))
          (.alt (.seq (.char 'g') (.seq (.char 'i') (.char 'f')))
            (.seq (.char 's') (.seq (.char 'v') (.char 'g'))))))
      .eoi)

/-! ## `sw.js` -/

/-- The constant `version`. -/
def version : String := "20220628080144"

/-- The constant `cacheName`, the template string made of `static::` and the version. -/
def cacheName : String := "static::" ++ version

/-- The manifest returned by `buildContentBlob`. -/
def buildContentBlob : List String :=
  ["/jekyll/update/2018/03/03/welcome-to-jekyll/", "/404/", "/assets/revealthemes/anu.css",
   "/assets/revealthemes/reveal/black.css", "/assets/revealthemes/crepre-dark.css",
   "/assets/revealthemes/crepre.css", "/imps/", "/blog/", "/", "/assets/mdn/mdn-lecture/",
   "/assets/revealthemes/reveal/moon.css", "/assets/revealthemes/reveal-box-slides.css",
   "/assets/revealthemes/reveal/solarized.css", "/assets/styles.css",
   "/assets/revealthemes/reveal/white.css", "/workshop/", "/manifest.json",
   "/assets/search.json", "/redirects.json", "/sitemap.xml", "/robots.txt", "/feed.xml",
   "/assets/revealthemes/anu.css.map", "/assets/revealthemes/reveal/black.css.map",
   "/assets/revealthemes/crepre-dark.css.map", "/assets/revealthemes/crepre.css.map",
   "/assets/revealthemes/reveal/moon.css.map", "/assets/revealthemes/reveal-box-slides.css.map",
   "/assets/revealthemes/reveal/solarized.css.map", "/assets/styles.css.map",
   "/assets/revealthemes/reveal/white.css.map", "/assets/network_logo.svg",
   "/assets/default-offline-image.png", "/assets/scripts/fetch.js"]

/-! ### Cache API primitives -/

/-- The entry a cache holds for a request URL, if any: the first entry whose URL equals the
requested one, fragments excluded on both sides. -/
def cacheLookup (cache : Cache) (url : String) : Option Response :=
  (cache.find? (fun e => withoutFragment e.1 == withoutFragment url)).map (fun e => e.2)

/-- The platform call `caches.match(key)`: the first match over every cache of the storage, in
creation order, not scoped to one cache name; URLs are compared with their fragments excluded;
`none` stands for `undefined`. -/
def cachesMatch (store : CacheStorage) (url : String) : Option Response :=
  store.findSome? (fun e => cacheLookup e.2 url)

/-- The platform call `caches.open(name)`: the named cache is created, empty, when absent. -/
def cachesOpen (store : CacheStorage) (name : String) : CacheStorage :=
  if store.any (fun e => e.1 == name) then store else store ++ [(name, [])]

/-- The platform call `caches.keys()`. -/
def cachesKeys (store : CacheStorage) : List String :=
  store.map (fun e => e.1)

/-- The platform call `caches.delete(key)`: rejects with the environment's error and leaves the
storage as it was, or removes the named cache and fulfils with whether it existed. -/
def cachesDelete (env : Env) (store : CacheStorage) (key : String) :
    Settled Bool × CacheStorage :=
  match env.deleteError key with
  | some e => (.rejected e, store)
  | none => (.fulfilled (store.any (fun e => e.1 == key)), store.filter (fun e => e.1 != key))

/-- Storing one entry in a cache: the entries that match its URL, fragments excluded, are
replaced. -/
def cachePut (cache : Cache) (entry : String × Response) : Cache :=
  cache.filter (fun e => withoutFragment e.1 != withoutFragment entry.1) ++ [entry]

/-- The response of a fetch that `addAll` accepts: fulfilled and `ok`. -/
def fetchedOk : Settled Response → Option Response
  | .fulfilled r => if r.ok then some r else none
  | .rejected _ => none

/-- The entries `addAll` would store for a list of paths: `none` as soon as one fetch is rejected
or answers with a status outside 200 to 299. -/
def fetchAll (env : Env) : List String → Option (List (String × Response))
  | [] => some []
  | path :: rest =>
    match fetchedOk (env.fetch ⟨"GET", env.resolve path⟩), fetchAll env rest with
    | some r, some entries => some ((env.resolve path, r) :: entries)
    | _, _ => none

/-- Modelled from the spec: the platform primitive `cache.addAll(paths)`, which is not part of
`sw.js`.  Section 4.3 (`populate`) states it fetches and stores every entry and fails without any
partial commit when a single fetch fails (network error or non-success status). -/
def cacheAddAll (env : Env) (store : CacheStorage) (name : String) (paths : List String) :
    Settled Unit × CacheStorage :=
  match fetchAll env paths with
  | some entries =>
    (.fulfilled (),
      store.map (fun e => if e.1 == name then (e.1, entries.foldl cachePut e.2) else e))
  | none => (.rejected "TypeError: Failed to fetch", store)

/-! ### The functions and listeners of `sw.js` -/

/-- What a lifecycle handler leaves behind: the outcome of the promise (for `install` and
`activate`, the one handed to `event.waitUntil`), the cache storage and the platform calls made. -/
structure Outcome (α : Type) where
  result : Settled α
  store : CacheStorage
  trace : List Effect

/-- The function `updateStaticCache`: open the current cache, then `addAll` the manifest. -/
def updateStaticCache (env : Env) (store : CacheStorage) : Outcome Unit :=
  let opened := cachesOpen store cacheName
  let added := cacheAddAll env opened cacheName buildContentBlob
  ⟨added.1, added.2, [.cachesOpen cacheName, .cacheAddAll cacheName buildContentBlob]⟩

/-- The `install` listener: `waitUntil(updateStaticCache().then(() => console.log(...)))`. -/
def onInstall (env : Env) (store : CacheStorage) : Outcome Unit :=
  let updated := updateStaticCache env store
  match updated.result with
  | .fulfilled _ =>
    ⟨.fulfilled (), updated.store,
      updated.trace ++ [.log ("Service Worker: cache updated to version: " ++ cacheName)]⟩
  | .rejected e => ⟨.rejected e, updated.store, updated.trace⟩

/-- The `.map` of `clearOldCache`: for each key in turn, log and call `caches.delete(key)`,
whatever the earlier deletions did. -/
def deleteEach (env : Env) : List String → CacheStorage →
    List (Settled Bool) × CacheStorage × List Effect
  | [], store => ([], store, [])
  | key :: rest, store =>
    let deleted := cachesDelete env store key
    let others := deleteEach env rest deleted.2
    (deleted.1 :: others.1, others.2.1,
      .log ("Service Worker: removing cache " ++ key) :: .cachesDelete key :: others.2.2)

/-- The function `clearOldCache`: `Promise.all` over the deletion of every key that differs from
`cacheName`. -/
def clearOldCache (env : Env) (store : CacheStorage) : Outcome (List Bool) :=
  let keys := cachesKeys store
  let deletions := deleteEach env (keys.filter (fun key => key != cacheName)) store
  ⟨promiseAll deletions.1, deletions.2.1, .cachesKeys :: deletions.2.2⟩

/-- The `activate` listener: `event.waitUntil(clearOldCache())`. -/
def onActivate (env : Env) (store : CacheStorage) : Outcome (List Bool) :=
  clearOldCache env store

/-- The local `offlineAsset` of the fetch listener: `"/offline/"`, replaced by the offline image
when `request.url.match(/\.(jpe?g|png|gif|svg)$/)` is non-null. -/
def offlineAsset (request : Request) : String :=
  if imagePattern.test request.url then "/assets/default-offline-image.png" else "/offline/"

/-- What the `fetch` listener leaves behind: the settled outcome of the promise passed to
`event.respondWith` (`none`: `respondWith` was not called, `fulfilled none`: the promise resolved
to `undefined`), the cache storage and the platform calls made. -/
structure FetchOutcome where
  respondWith : Option (Settled (Option Response))
  store : CacheStorage
  trace : List Effect

/-- The `fetch` listener. -/
def onFetch (env : Env) (store : CacheStorage) (request : Request) : FetchOutcome :=
  if env.urlOrigin request.url ≠ env.origin then
    ⟨none, store, []⟩
  else if request.method ≠ "GET" then
    ⟨some ((env.fetch request).map some), store, [.fetch request]⟩
  else
    let fallback := offlineAsset request
    match env.fetch request with
    | .fulfilled response => ⟨some (.fulfilled (some response)), store, [.fetch request]⟩
    | .rejected _ =>
      match cachesMatch store request.url with
      | some cached =>
        ⟨some (.fulfilled (some cached)), store, [.fetch request, .cachesMatch request.url]⟩
      | none =>
        ⟨some (.fulfilled (cachesMatch store (env.resolve fallback))), store,
          [.fetch request, .cachesMatch request.url, .cachesMatch (env.resolve fallback)]⟩

/-! ## Definitions that follow the words of the specification -/

/-- Specification side: the image extensions the fetch fallback names. -/
def imageExtensions : List String := [".jpg", ".jpeg", ".png", ".gif", ".svg"]

/-- Specification side: the URL string ends in one of the image extensions, as written. -/
def endsInImageExtension (url : String) : Bool :=
  imageExtensions.any (fun ext => ext.data.isSuffixOf url.data)

/-- Specification side: the URL string ends in a dot followed by one of the image extensions
written in any mix of upper and lower case. -/
def endsInImageExtensionAnyCase (url : String) : Bool :=
  imageExtensions.any (fun ext => ext.data.isSuffixOf (url.data.map Char.toLower))

/-- Specification side: a URL string without its query string and fragment, that is up to the
first `?` or `#`. -/
def withoutQueryAndFragment (url : String) : String :=
  ⟨url.data.takeWhile (fun c => c != '?' && c != '#')⟩

/-- Specification side: `lookup` scoped to the cache of one name. -/
def lookupIn (store : CacheStorage) (name url : String) : Option Response :=
  (store.find? (fun e => e.1 == name)).bind (fun e => cacheLookup e.2 url)

/-! ## Sample surroundings, used to instantiate the theorems -/

/-- A sample URL parser: URLs under `https://example.com/` have that origin. -/
def sampleUrlOrigin (url : String) : String :=
  if "https://example.com/".data.isPrefixOf url.data then "https://example.com"
  else "https://elsewhere.example"

/-- Sample surroundings in which every network fetch is rejected and one stale cache cannot be
deleted. -/
def offlineEnv : Env where
  origin := "https://example.com"
  urlOrigin := sampleUrlOrigin
  network := fun _ => .rejected "TypeError: Failed to fetch"
  deleteError := fun key => if key == "static::20200101000000" then some "QuotaError" else none

/-- Sample surroundings in which every network fetch answers 200 with the URL as body and every
cache deletion succeeds. -/
def onlineEnv : Env where
  origin := "https://example.com"
  urlOrigin := sampleUrlOrigin
  network := fun request => .fulfilled ⟨200, request.url⟩
  deleteError := fun _ => none

/-- A sample cache storage: a stale generation that holds a page, and the current generation
that holds the offline image. -/
def sampleStore : CacheStorage :=
  [("static::20200101000000", [("https://example.com/blog/", ⟨200, "old blog"⟩)]),
   (cacheName, [("https://example.com/assets/default-offline-image.png", ⟨200, "image"⟩)])]

/-! ## Lemmas on the pattern -/

theorem matchFrom_char (c : Char) (s : List Char) (k : List Char → Bool) :
    (RegExp.char c).matchFrom s k = true ↔ ∃ rest, s = c :: rest ∧ k rest = true := by
  cases s with
  | nil => simp [RegExp.matchFrom]
  | cons x rest =>
    simp only [RegExp.matchFrom, Bool.and_eq_true, beq_iff_eq, List.cons.injEq]
    constructor
    · rintro ⟨rfl, h⟩
      exact ⟨rest, ⟨rfl, rfl⟩, h⟩
    · rintro ⟨r, ⟨rfl, rfl⟩, h⟩
      exact ⟨rfl, h⟩

theorem matchFrom_seq (a b : RegExp) (s : List Char) (k : List Char → Bool) :
    (RegExp.seq a b).matchFrom s k = a.matchFrom s (fun rest => b.matchFrom rest k) := rfl

theorem matchFrom_alt (a b : RegExp) (s : List Char) (k : List Char → Bool) :
    (RegExp.alt a b).matchFrom s k = (a.matchFrom s k || b.matchFrom s k) := rfl

theorem matchFrom_opt (a : RegExp) (s : List Char) (k : List Char → Bool) :
    (RegExp.opt a).matchFrom s k = (a.matchFrom s k || k s) := rfl

theorem matchFrom_eoi (s : List Char) (k : List Char → Bool) :
    RegExp.eoi.matchFrom s k = (s.isEmpty && k s) := rfl

theorem matchFrom_imagePattern (t : List Char) :
    imagePattern.matchFrom t (fun _ => true) = true ↔
      t ∈ imageExtensions.map (fun ext => ext.data) := by
  simp only [imagePattern, matchFrom_seq, matchFrom_alt, matchFrom_opt, matchFrom_eoi,
    matchFrom_char, Bool.or_eq_true, Bool.and_eq_true,
    List.isEmpty_iff, imageExtensions, List.map, List.mem_cons, List.mem_singleton,
    List.not_mem_nil, or_false, and_true]
  constructor
  · rintro ⟨r1, rfl, h⟩
    rcases h with ⟨r2, rfl, r3, rfl, h⟩ | ⟨r2, rfl, r3, rfl, r4, rfl, rfl⟩ |
      ⟨r2, rfl, r3, rfl, r4, rfl, rfl⟩ | ⟨r2, rfl, r3, rfl, r4, rfl, rfl⟩
    · rcases h with ⟨r4, rfl, r5, rfl, rfl⟩ | ⟨r4, rfl, rfl⟩
      · right; left; rfl
      · left; rfl
    · right; right; left; rfl
    · right; right; right; left; rfl
    · right; right; right; right; rfl
  · rintro (rfl | rfl | rfl | rfl | rfl) <;> simp

/-- The pattern of the fetch listener finds a match exactly in the strings that end in one of
the five lower-case image extensions. -/
theorem test_imagePattern (url : String) :
    imagePattern.test url = endsInImageExtension url := by
  rw [Bool.eq_iff_iff]
  simp only [RegExp.test, endsInImageExtension, List.any_eq_true, List.mem_tails,
    matchFrom_imagePattern, List.mem_map, List.isSuffixOf_iff_suffix]
  constructor
  · rintro ⟨t, ht, ext, hext, rfl⟩
    exact ⟨ext, hext, ht⟩
  · rintro ⟨ext, hext, ht⟩
    exact ⟨ext.data, ht, ext, hext, rfl⟩

theorem offlineAsset_eq (request : Request) :
    offlineAsset request =
      if endsInImageExtension request.url then "/assets/default-offline-image.png"
      else "/offline/" := by
  simp only [offlineAsset, test_imagePattern]

/-- A list without `c` that is a suffix of `u ++ c :: q` is a suffix of `q`. -/
theorem suffix_of_suffix_append_cons {e u q : List Char} {c : Char} (hc : c ∉ e)
    (h : e <:+ u ++ c :: q) : e <:+ q := by
  have hq : c :: q <:+ u ++ c :: q := List.suffix_append u (c :: q)
  rcases List.suffix_or_suffix_of_suffix h hq with h1 | h1
  · rcases List.suffix_cons_iff.mp h1 with h2 | h2
    · exact absurd (h2 ▸ List.mem_cons_self c q) hc
    · exact h2
  · exact absurd (h1.mem (List.mem_cons_self c q)) hc

theorem endsInImageExtension_append (u q : String) (c : Char) (hc : c = '?' ∨ c = '#') :
    endsInImageExtension (u ++ String.singleton c ++ q) =
      endsInImageExtension (String.singleton c ++ q) := by
  rw [Bool.eq_iff_iff]
  simp only [endsInImageExtension, List.any_eq_true, List.isSuffixOf_iff_suffix,
    String.data_append, String.singleton, List.append_assoc, List.singleton_append]
  have hmem : ∀ ext ∈ imageExtensions, c ∉ ext.data := by
    intro ext hext
    simp only [imageExtensions, List.mem_cons, List.mem_singleton, List.not_mem_nil,
      or_false] at hext
    rcases hc with rfl | rfl <;> rcases hext with rfl | rfl | rfl | rfl | rfl <;> decide
  constructor
  · rintro ⟨ext, hext, h⟩
    exact ⟨ext, hext, (suffix_of_suffix_append_cons (hmem ext hext) h).trans
      (List.suffix_cons c q.data)⟩
  · rintro ⟨ext, hext, h⟩
    exact ⟨ext, hext, h.trans (List.suffix_append u.data (c :: q.data))⟩

/-! ## Lemmas on eviction -/

/-- After the deletions of `keys`, in turn, a cache is left exactly when it was not among them
or its deletion failed. -/
theorem deleteEach_store (env : Env) (keys : List String) (store : CacheStorage) :
    (deleteEach env keys store).2.1 =
      store.filter (fun e => decide (e.1 ∉ keys) || (env.deleteError e.1).isSome) := by
  induction keys generalizing store with
  | nil => simp [deleteEach]
  | cons key rest ih =>
    simp only [deleteEach, cachesDelete, ih]
    cases h : env.deleteError key with
    | some err =>
      apply List.filter_congr
      intro e _
      by_cases hk : e.1 = key
      · simp [hk, h]
      · simp [hk]
    | none =>
      simp only [List.filter_filter]
      apply List.filter_congr
      intro e _
      by_cases hk : e.1 = key
      · simp [hk, h]
      · simp [hk]

/-- The deletion of every key handed to `deleteEach` is attempted, and of no other. -/
theorem deleteEach_trace (env : Env) (keys : List String) (store : CacheStorage) (key : String) :
    Effect.cachesDelete key ∈ (deleteEach env keys store).2.2 ↔ key ∈ keys := by
  induction keys generalizing store with
  | nil => simp [deleteEach]
  | cons k rest ih =>
    simp only [deleteEach, List.mem_cons, ih, Effect.cachesDelete.injEq, reduceCtorEq, false_or]

/-- The promise returned by `Promise.all` is fulfilled exactly when every promise is. -/
theorem promiseAll_isFulfilled {α : Type} (ps : List (Settled α)) :
    (promiseAll ps).isFulfilled = true ↔ ∀ p ∈ ps, p.isFulfilled = true := by
  induction ps with
  | nil => simp [promiseAll, Settled.isFulfilled]
  | cons p rest ih =>
    cases p with
    | rejected e => simp [promiseAll, Settled.isFulfilled]
    | fulfilled v =>
      have step : (promiseAll (Settled.fulfilled v :: rest)).isFulfilled =
          (promiseAll rest).isFulfilled := by
        simp only [promiseAll]
        cases promiseAll rest <;> rfl
      rw [step, ih, List.forall_mem_cons]
      exact (and_iff_right rfl).symm

/-- The deletions of `deleteEach` are all fulfilled exactly when none of them has an error. -/
theorem deleteEach_isFulfilled (env : Env) (keys : List String) (store : CacheStorage) :
    (∀ p ∈ (deleteEach env keys store).1, p.isFulfilled = true) ↔
      ∀ key ∈ keys, env.deleteError key = none := by
  induction keys generalizing store with
  | nil => simp [deleteEach]
  | cons k rest ih =>
    simp only [deleteEach, List.mem_cons, forall_eq_or_imp, ih]
    apply and_congr_left
    intro _
    simp only [cachesDelete]
    cases env.deleteError k <;> simp [Settled.isFulfilled]

/-- Among names without repetition, the ones equal to a member are that member alone. -/
theorem filter_beq_of_nodup {names : List String} {name : String} (hNodup : names.Nodup)
    (hMem : name ∈ names) : names.filter (fun key => key == name) = [name] := by
  induction names with
  | nil => simp at hMem
  | cons k rest ih =>
    rw [List.nodup_cons] at hNodup
    by_cases hk : k = name
    · subst hk
      have : rest.filter (fun key => key == k) = [] := by
        rw [List.filter_eq_nil_iff]
        intro a ha hak
        exact hNodup.1 (by rw [← beq_iff_eq.mp hak]; exact ha)
      simp [List.filter_cons, this]
    · have hMem2 : name ∈ rest := by
        rcases List.mem_cons.mp hMem with h | h
        · exact absurd h.symm hk
        · exact h
      simp [List.filter_cons, hk, ih hNodup.2 hMem2]

/-- The names left by `clearOldCache`: the current one, and those whose deletion failed. -/
theorem clearOldCache_store (env : Env) (store : CacheStorage) :
    (clearOldCache env store).store =
      store.filter (fun e => e.1 == cacheName || (env.deleteError e.1).isSome) := by
  simp only [clearOldCache, deleteEach_store, cachesKeys]
  apply List.filter_congr
  intro e he
  have hmem : e.1 ∈ List.map (fun e => e.1) store := List.mem_map_of_mem _ he
  by_cases hk : e.1 = cacheName
  · simp [hk]
  · simp [hk, hmem]

/-! ## Lemmas on population -/

/-- The batch of `addAll` exists exactly when every fetch is accepted. -/
theorem fetchAll_isSome (env : Env) (paths : List String) :
    (fetchAll env paths).isSome = true ↔
      ∀ path ∈ paths, (fetchedOk (env.fetch ⟨"GET", env.resolve path⟩)).isSome = true := by
  induction paths with
  | nil => simp [fetchAll]
  | cons path rest ih =>
    rw [List.forall_mem_cons, ← ih]
    simp only [fetchAll]
    cases fetchedOk (env.fetch ⟨"GET", env.resolve path⟩) <;> cases fetchAll env rest <;> simp

/-- Every entry of the batch is an accepted fetch of its own URL. -/
theorem fetchAll_sound (env : Env) (paths : List String) (entries : List (String × Response))
    (h : fetchAll env paths = some entries) :
    ∀ e ∈ entries, fetchedOk (env.fetch ⟨"GET", e.1⟩) = some e.2 := by
  induction paths generalizing entries with
  | nil =>
    simp only [fetchAll, Option.some.injEq] at h
    subst h
    simp
  | cons path rest ih =>
    simp only [fetchAll] at h
    cases h1 : fetchedOk (env.fetch ⟨"GET", env.resolve path⟩) with
    | none => simp [h1] at h
    | some r =>
      cases h2 : fetchAll env rest with
      | none => simp [h1, h2] at h
      | some es =>
        simp only [h1, h2, Option.some.injEq] at h
        subst h
        intro e he
        rcases List.mem_cons.mp he with rfl | he
        · exact h1
        · exact ih es h2 e he

/-- Every path of the manifest has its entry in the batch. -/
theorem fetchAll_complete (env : Env) (paths : List String) (entries : List (String × Response))
    (h : fetchAll env paths = some entries) :
    ∀ path ∈ paths, ∃ e ∈ entries, e.1 = env.resolve path := by
  induction paths generalizing entries with
  | nil => simp
  | cons path rest ih =>
    simp only [fetchAll] at h
    cases h1 : fetchedOk (env.fetch ⟨"GET", env.resolve path⟩) with
    | none => simp [h1] at h
    | some r =>
      cases h2 : fetchAll env rest with
      | none => simp [h1, h2] at h
      | some es =>
        simp only [h1, h2, Option.some.injEq] at h
        subst h
        intro p hp
        rcases List.mem_cons.mp hp with rfl | hp
        · exact ⟨_, List.mem_cons_self _ _, rfl⟩
        · obtain ⟨e, he, hk⟩ := ih es h2 p hp
          exact ⟨e, List.mem_cons_of_mem _ he, hk⟩

/-- Lookup after one `put`. -/
theorem cacheLookup_cachePut (cache : Cache) (entry : String × Response) (url : String) :
    cacheLookup (cachePut cache entry) url =
      if withoutFragment entry.1 = withoutFragment url then some entry.2
      else cacheLookup cache url := by
  simp only [cacheLookup, cachePut, List.find?_append, List.find?_filter]
  by_cases h : withoutFragment entry.1 = withoutFragment url
  · have : List.find? (fun a => decide ((withoutFragment a.1 != withoutFragment entry.1) = true
        ∧ (withoutFragment a.1 == withoutFragment url) = true)) cache = none := by
      rw [List.find?_eq_none]
      intro a _
      by_cases ha : withoutFragment a.1 = withoutFragment url <;> simp [ha, h]
    rw [this]
    simp [h]
  · have : List.find? (fun a => decide ((withoutFragment a.1 != withoutFragment entry.1) = true
        ∧ (withoutFragment a.1 == withoutFragment url) = true)) cache =
        List.find? (fun a => withoutFragment a.1 == withoutFragment url) cache := by
      congr 1
      funext a
      by_cases ha : withoutFragment a.1 = withoutFragment url
      · simp [ha, Ne.symm h]
      · simp [ha]
    rw [this]
    simp [h]

/-- Lookup after a batch of `put`s whose entries that match `url` all carry `response`. -/
theorem cacheLookup_foldl_cachePut (entries : List (String × Response)) (cache : Cache)
    (url : String) (response : Response)
    (hFun : ∀ e ∈ entries, withoutFragment e.1 = withoutFragment url → e.2 = response) :
    cacheLookup (entries.foldl cachePut cache) url =
      if ∃ e ∈ entries, withoutFragment e.1 = withoutFragment url then some response
      else cacheLookup cache url := by
  induction entries generalizing cache with
  | nil => simp
  | cons e rest ih =>
    rw [List.foldl_cons, ih _ (fun e' he' => hFun e' (List.mem_cons_of_mem _ he')),
      cacheLookup_cachePut]
    by_cases hrest : ∃ e' ∈ rest, withoutFragment e'.1 = withoutFragment url
    · have : ∃ e' ∈ e :: rest, withoutFragment e'.1 = withoutFragment url := by
        obtain ⟨e', he', hk⟩ := hrest
        exact ⟨e', List.mem_cons_of_mem _ he', hk⟩
      rw [if_pos hrest, if_pos this]
    · by_cases he : withoutFragment e.1 = withoutFragment url
      · have : ∃ e' ∈ e :: rest, withoutFragment e'.1 = withoutFragment url :=
          ⟨e, List.mem_cons_self _ _, he⟩
        rw [if_neg hrest, if_pos he, if_pos this, hFun e (List.mem_cons_self _ _) he]
      · have : ¬ ∃ e' ∈ e :: rest, withoutFragment e'.1 = withoutFragment url := by
          rintro ⟨e', he', hk⟩
          rcases List.mem_cons.mp he' with rfl | he'
          · exact he hk
          · exact hrest ⟨e', he', hk⟩
        rw [if_neg hrest, if_neg he, if_neg this]

/-- The named cache after `addAll` stored its batch, seen through the scoped lookup. -/
theorem lookupIn_map_put (store : CacheStorage) (name url : String)
    (entries : List (String × Response)) :
    lookupIn (store.map (fun e => if e.1 == name then (e.1, entries.foldl cachePut e.2) else e))
        name url =
      (store.find? (fun e => e.1 == name)).bind
        (fun e => cacheLookup (entries.foldl cachePut e.2) url) := by
  induction store with
  | nil => simp [lookupIn]
  | cons e rest ih =>
    simp only [lookupIn] at ih ⊢
    by_cases h : e.1 = name
    · simp [List.find?_cons, h]
    · have hb : (e.1 == name) = false := by simpa using h
      simp only [List.map_cons, hb, Bool.false_eq_true, if_false, List.find?_cons]
      exact ih

/-- After `caches.open(name)` the storage has a cache of that name. -/
theorem find?_cachesOpen (store : CacheStorage) (name : String) :
    ∃ e, (cachesOpen store name).find? (fun e => e.1 == name) = some e
      ∧ ∀ url, cacheLookup e.2 url = lookupIn store name url := by
  unfold cachesOpen lookupIn
  cases h : store.find? (fun e => e.1 == name) with
  | some e =>
    have hany : store.any (fun e => e.1 == name) = true := by
      rw [List.any_eq_true]
      have hp := List.find?_some h
      exact ⟨e, List.mem_of_find?_eq_some h, hp⟩
    simp [hany, h]
  | none =>
    have hany : store.any (fun e => e.1 == name) = false := by
      rw [List.find?_eq_none] at h
      rw [List.any_eq_false]
      exact h
    simp [hany, h, List.find?_append, cacheLookup]

/-- The scoped lookup does not see the mere opening of the cache. -/
theorem lookupIn_cachesOpen (store : CacheStorage) (name url : String) :
    lookupIn (cachesOpen store name) name url = lookupIn store name url := by
  obtain ⟨e, he, hl⟩ := find?_cachesOpen store name
  rw [← hl url]
  simp [lookupIn, he]

/-- The `install` listener when one fetch of the manifest is not accepted. -/
theorem onInstall_of_none (env : Env) (store : CacheStorage)
    (h : fetchAll env buildContentBlob = none) :
    onInstall env store =
      ⟨.rejected "TypeError: Failed to fetch", cachesOpen store cacheName,
        [.cachesOpen cacheName, .cacheAddAll cacheName buildContentBlob]⟩ := by
  simp [onInstall, updateStaticCache, cacheAddAll, h]

/-- The `install` listener when every fetch of the manifest is accepted. -/
theorem onInstall_of_some (env : Env) (store : CacheStorage) (entries : List (String × Response))
    (h : fetchAll env buildContentBlob = some entries) :
    onInstall env store =
      ⟨.fulfilled (),
        (cachesOpen store cacheName).map
          (fun e => if e.1 == cacheName then (e.1, entries.foldl cachePut e.2) else e),
        [.cachesOpen cacheName, .cacheAddAll cacheName buildContentBlob,
          .log ("Service Worker: cache updated to version: " ++ cacheName)]⟩ := by
  simp [onInstall, updateStaticCache, cacheAddAll, h]

/-- After a batch was stored in the current cache, the scoped lookup of every path of the batch
returns the response fetched for it. -/
theorem lookupIn_after_addAll (env : Env) (store : CacheStorage) (paths : List String)
    (entries : List (String × Response)) (h : fetchAll env paths = some entries)
    (path : String) (hPath : path ∈ paths) :
    ∃ response, fetchedOk (env.fetch ⟨"GET", env.resolve path⟩) = some response
      ∧ lookupIn ((cachesOpen store cacheName).map
          (fun e => if e.1 == cacheName then (e.1, entries.foldl cachePut e.2) else e))
          cacheName (env.resolve path) = some response := by
  obtain ⟨e, he, hk⟩ := fetchAll_complete env paths entries h path hPath
  have hSound := fetchAll_sound env paths entries h
  have hFetched : fetchedOk (env.fetch ⟨"GET", env.resolve path⟩) = some e.2 := by
    rw [← hk]
    exact hSound e he
  refine ⟨e.2, hFetched, ?_⟩
  obtain ⟨c, hc, _⟩ := find?_cachesOpen store cacheName
  rw [lookupIn_map_put, hc, Option.some_bind, cacheLookup_foldl_cachePut entries c.2 _ e.2]
  · rw [if_pos ⟨e, he, by rw [hk]⟩]
  · intro e' he' hk'
    have h1 := hSound e' he'
    have h2 : env.fetch ⟨"GET", e'.1⟩ = env.fetch ⟨"GET", env.resolve path⟩ := by
      simp only [Env.fetch, hk']
    rw [h2, hFetched] at h1
    exact (Option.some.inj h1).symm

/-! ## Lemmas on the storage-wide match -/

/-- The storage-wide match finds a response as soon as some cache holds an entry whose URL is
the requested one, fragments excluded. -/
theorem cachesMatch_of_mem (store : CacheStorage) (url : String) (c : String × Cache)
    (e : String × Response) (hc : c ∈ store) (he : e ∈ c.2)
    (hUrl : withoutFragment e.1 = withoutFragment url) :
    ∃ cached, cachesMatch store url = some cached := by
  cases h : cachesMatch store url with
  | some cached => exact ⟨cached, rfl⟩
  | none =>
    exfalso
    simp only [cachesMatch, List.findSome?_eq_none_iff] at h
    have h1 := h c hc
    simp only [cacheLookup, Option.map_eq_none', List.find?_eq_none] at h1
    exact h1 e he (by simpa using hUrl)

/-! ## The fetch listener -/

/-- C1: for a same-origin GET request whose network fetch fails, the fetch listener responds with
the cache lookup of the request itself when that finds an entry, and otherwise with the cache
lookup of the fallback key, which is the offline image when the URL ends in `.jpg`, `.jpeg`,
`.png`, `.gif` or `.svg` and `/offline/` for every other URL; a cached copy of the request takes
precedence over the fallback asset, and a copy is found whenever some cache holds an entry whose
URL is the one of the request, fragments excluded (as `caches.match` compares them). -/
theorem onFetch_network_failure (env : Env) (store : CacheStorage) (request : Request)
    (reason : String) (hOrigin : env.urlOrigin request.url = env.origin)
    (hGet : request.method = "GET") (hFail : env.fetch request = .rejected reason) :
    (onFetch env store request).respondWith =
        some (.fulfilled
          (match cachesMatch store request.url with
          | some cached => some cached
          | none =>
            cachesMatch store (env.resolve
              (if endsInImageExtension request.url then "/assets/default-offline-image.png"
               else "/offline/"))))
      ∧ (∀ cached, cachesMatch store request.url = some cached →
          (onFetch env store request).respondWith = some (.fulfilled (some cached)))
      ∧ (∀ c ∈ store, ∀ e ∈ c.2, withoutFragment e.1 = withoutFragment request.url →
          ∃ cached, cachesMatch store request.url = some cached
            ∧ (onFetch env store request).respondWith = some (.fulfilled (some cached))) := by
  have hSome : ∀ cached, cachesMatch store request.url = some cached →
      (onFetch env store request).respondWith = some (.fulfilled (some cached)) := by
    intro cached h
    unfold onFetch
    simp [hOrigin, hGet, hFail, h]
  refine ⟨?_, hSome, ?_⟩
  · unfold onFetch
    simp only [hOrigin, hGet, hFail, ne_eq, not_true_eq_false, if_false]
    cases h : cachesMatch store request.url with
    | none => simp [offlineAsset_eq]
    | some cached => simp
  · intro c hc e he hUrl
    obtain ⟨cached, h⟩ := cachesMatch_of_mem store request.url c e hc he hUrl
    exact ⟨cached, h, hSome cached h⟩

/-- Instances of C1: offline, `/photo.png` was never cached and the stored offline image is
served; `/blog/#top` is served from the cached `/blog/`, the fragment being excluded from the
match.  The hypotheses hold at these inputs. -/
theorem onFetch_network_failure_witness :
    (offlineEnv.urlOrigin "https://example.com/photo.png" = offlineEnv.origin
      ∧ offlineEnv.fetch ⟨"GET", "https://example.com/photo.png"⟩
          = .rejected "TypeError: Failed to fetch"
      ∧ offlineEnv.urlOrigin "https://example.com/blog/#top" = offlineEnv.origin
      ∧ cachesMatch sampleStore "https://example.com/blog/#top" = some ⟨200, "old blog"⟩)
      ∧ (onFetch offlineEnv sampleStore ⟨"GET", "https://example.com/photo.png"⟩).respondWith
          = some (.fulfilled (some ⟨200, "image"⟩))
      ∧ (onFetch offlineEnv sampleStore ⟨"GET", "https://example.com/blog/#top"⟩).respondWith
          = some (.fulfilled (some ⟨200, "old blog"⟩)) :=
  ⟨⟨by decide, rfl, by decide, by decide⟩,
    ((onFetch_network_failure offlineEnv sampleStore ⟨"GET", "https://example.com/photo.png"⟩
      "TypeError: Failed to fetch" (by decide) rfl rfl).1).trans (by decide),
    (onFetch_network_failure offlineEnv sampleStore ⟨"GET", "https://example.com/blog/#top"⟩
      "TypeError: Failed to fetch" (by decide) rfl rfl).2.1 ⟨200, "old blog"⟩ (by decide)⟩

/-- C3, as stated, fails: `/PHOTO.PNG` ends in an image extension written in upper case, yet the
pattern has no `i` flag and the fallback key chosen is `/offline/`. -/
theorem offlineAsset_upper_case_counterexample :
    ¬ ∀ request : Request, endsInImageExtensionAnyCase request.url = true →
        offlineAsset request = "/assets/default-offline-image.png" := by
  intro h
  exact absurd (h ⟨"GET", "https://example.com/PHOTO.PNG"⟩ (by decide)) (by decide)

/-- C3, amended: the image classification is case-sensitive.  The fallback key chosen is the
offline image exactly when the URL ends in `.jpg`, `.jpeg`, `.png`, `.gif` or `.svg` written in
lower case, and it is `/offline/` otherwise (so for `/PHOTO.PNG` and `/a.Jpg`). -/
theorem offlineAsset_case_sensitive (request : Request) :
    (offlineAsset request = "/assets/default-offline-image.png" ↔
        endsInImageExtension request.url = true)
      ∧ (offlineAsset request = "/offline/" ↔ endsInImageExtension request.url = false)
      ∧ offlineAsset ⟨"GET", "https://example.com/PHOTO.PNG"⟩ = "/offline/"
      ∧ offlineAsset ⟨"GET", "https://example.com/a.Jpg"⟩ = "/offline/" := by
  refine ⟨?_, ?_, by decide, by decide⟩
  · rw [offlineAsset_eq]
    cases endsInImageExtension request.url <;> decide
  · rw [offlineAsset_eq]
    cases endsInImageExtension request.url <;> decide

/-- C10, as stated, fails: `/photo.png` and `/photo.png?v=2` have the same path and differ only
in the query string, yet the first selects the offline image and the second `/offline/`. -/
theorem offlineAsset_query_string_counterexample :
    ¬ ∀ r₁ r₂ : Request, withoutQueryAndFragment r₁.url = withoutQueryAndFragment r₂.url →
        offlineAsset r₁ = offlineAsset r₂ := by
  intro h
  exact absurd (h ⟨"GET", "https://example.com/photo.png"⟩
    ⟨"GET", "https://example.com/photo.png?v=2"⟩ (by decide)) (by decide)

/-- C10, amended: the fallback key is a function of the ending of the whole URL string, query
string and fragment included.  Two requests whose URLs carry the same query string or fragment
(a tail that starts with `?` or `#`) select the same fallback key whatever their paths. -/
theorem offlineAsset_decided_by_tail (m₁ m₂ u₁ u₂ q : String) (c : Char)
    (hc : c = '?' ∨ c = '#') :
    offlineAsset ⟨m₁, u₁ ++ String.singleton c ++ q⟩ =
      offlineAsset ⟨m₂, u₂ ++ String.singleton c ++ q⟩ := by
  rw [offlineAsset_eq, offlineAsset_eq]
  simp only [endsInImageExtension_append u₁ q c hc, endsInImageExtension_append u₂ q c hc]

/-- Instance of the amended C10: the image path `/photo.png?v=2` selects the same key as the page
`/blog/?v=2`, which is `/offline/`. -/
theorem offlineAsset_decided_by_tail_witness :
    ('?' = '?' ∨ '?' = '#')
      ∧ offlineAsset ⟨"GET", "https://example.com/photo.png" ++ String.singleton '?' ++ "v=2"⟩
          = offlineAsset ⟨"GET", "https://example.com/blog/" ++ String.singleton '?' ++ "v=2"⟩
      ∧ offlineAsset ⟨"GET", "https://example.com/photo.png?v=2"⟩ = "/offline/" :=
  ⟨Or.inl rfl,
    offlineAsset_decided_by_tail "GET" "GET" "https://example.com/photo.png"
      "https://example.com/blog/" "v=2" '?' (Or.inl rfl),
    by decide⟩

/-- C4: a request whose origin differs from the worker's own is not intercepted, whatever its
method, its URL ending or the cache contents: `respondWith` is not called, no network fetch is
issued, no cache is read and the cache storage is as before. -/
theorem onFetch_cross_origin (env : Env) (store : CacheStorage) (request : Request)
    (hOrigin : env.urlOrigin request.url ≠ env.origin) :
    (onFetch env store request).respondWith = none
      ∧ (onFetch env store request).trace = []
      ∧ (onFetch env store request).store = store := by
  unfold onFetch
  simp [hOrigin]

/-- Instance of C4: a GET for an image on another origin, with a populated cache storage. -/
theorem onFetch_cross_origin_witness :
    offlineEnv.urlOrigin "https://cdn.example.org/photo.png" ≠ offlineEnv.origin
      ∧ (onFetch offlineEnv sampleStore ⟨"GET", "https://cdn.example.org/photo.png"⟩).respondWith
          = none
      ∧ (onFetch offlineEnv sampleStore ⟨"GET", "https://cdn.example.org/photo.png"⟩).trace = []
      ∧ (onFetch offlineEnv sampleStore ⟨"GET", "https://cdn.example.org/photo.png"⟩).store
          = sampleStore :=
  ⟨by decide,
    onFetch_cross_origin offlineEnv sampleStore ⟨"GET", "https://cdn.example.org/photo.png"⟩
      (by decide)⟩

/-- C5: for a same-origin request whose method is not GET, the fetch listener responds with
exactly the outcome of the network fetch of that request; the only platform call is that fetch
(no cache lookup, whatever the cache state), the cache storage is as before, and a failed fetch
is passed on as the same failure, with no cached copy and no fallback asset in its place. -/
theorem onFetch_non_get (env : Env) (store : CacheStorage) (request : Request)
    (hOrigin : env.urlOrigin request.url = env.origin) (hMethod : request.method ≠ "GET") :
    (onFetch env store request).respondWith = some ((env.fetch request).map some)
      ∧ (onFetch env store request).trace = [.fetch request]
      ∧ (onFetch env store request).store = store
      ∧ ∀ reason, env.fetch request = .rejected reason →
          (onFetch env store request).respondWith = some (.rejected reason) := by
  unfold onFetch
  simp only [hOrigin, hMethod, ne_eq, not_true_eq_false, not_false_eq_true, if_true, if_false,
    true_and]
  intro reason h
  rw [h]
  rfl

/-- Instance of C5: an offline POST to a URL that is cached is answered with the rejection. -/
theorem onFetch_non_get_witness :
    (offlineEnv.urlOrigin "https://example.com/blog/" = offlineEnv.origin ∧ "POST" ≠ "GET")
      ∧ (onFetch offlineEnv sampleStore ⟨"POST", "https://example.com/blog/"⟩).respondWith
          = some (.rejected "TypeError: Failed to fetch")
      ∧ (onFetch offlineEnv sampleStore ⟨"POST", "https://example.com/blog/"⟩).trace
          = [.fetch ⟨"POST", "https://example.com/blog/"⟩] :=
  ⟨⟨by decide, by decide⟩,
    (onFetch_non_get offlineEnv sampleStore ⟨"POST", "https://example.com/blog/"⟩
      (by decide) (by decide)).1,
    (onFetch_non_get offlineEnv sampleStore ⟨"POST", "https://example.com/blog/"⟩
      (by decide) (by decide)).2.1⟩

/-- C6: for a same-origin GET request whose network fetch succeeds, the fetch listener responds
with that network response, whatever is cached for the request; the only platform call is that
fetch (no cache is read) and the cache storage is left as it was. -/
theorem onFetch_network_success (env : Env) (store : CacheStorage) (request : Request)
    (response : Response) (hOrigin : env.urlOrigin request.url = env.origin)
    (hGet : request.method = "GET") (hOk : env.fetch request = .fulfilled response) :
    (onFetch env store request).respondWith = some (.fulfilled (some response))
      ∧ (onFetch env store request).trace = [.fetch request]
      ∧ (onFetch env store request).store = store := by
  unfold onFetch
  simp [hOrigin, hGet, hOk]

/-- Instance of C6: online, `/blog/` is cached with another body; the network response wins. -/
theorem onFetch_network_success_witness :
    (onlineEnv.urlOrigin "https://example.com/blog/" = onlineEnv.origin
      ∧ cachesMatch sampleStore "https://example.com/blog/" = some ⟨200, "old blog"⟩)
      ∧ (onFetch onlineEnv sampleStore ⟨"GET", "https://example.com/blog/"⟩).respondWith
          = some (.fulfilled (some ⟨200, "https://example.com/blog/"⟩))
      ∧ (onFetch onlineEnv sampleStore ⟨"GET", "https://example.com/blog/"⟩).trace
          = [.fetch ⟨"GET", "https://example.com/blog/"⟩]
      ∧ (onFetch onlineEnv sampleStore ⟨"GET", "https://example.com/blog/"⟩).store
          = sampleStore :=
  ⟨⟨by decide, by decide⟩,
    onFetch_network_success onlineEnv sampleStore ⟨"GET", "https://example.com/blog/"⟩
      ⟨200, "https://example.com/blog/"⟩ (by decide) rfl rfl⟩

/-! ## Activation -/

/-- C7: `clearOldCache` attempts the deletion of exactly the existing names that differ from the
current cache name `static::` followed by the version; when every deletion succeeds the promise is
fulfilled and the names left are exactly the existing names equal to the current cache name, so
if the current cache existed before, the only name left is the current one. -/
theorem clearOldCache_deletes_exactly_stale (env : Env) (store : CacheStorage)
    (hDelete : ∀ key ∈ cachesKeys store, key ≠ cacheName → env.deleteError key = none)
    (hNodup : (cachesKeys store).Nodup) :
    cacheName = "static::20220628080144"
      ∧ (∀ key, Effect.cachesDelete key ∈ (clearOldCache env store).trace ↔
          key ∈ cachesKeys store ∧ key ≠ cacheName)
      ∧ (clearOldCache env store).result.isFulfilled = true
      ∧ cachesKeys (clearOldCache env store).store =
          (cachesKeys store).filter (fun key => key == cacheName)
      ∧ (cacheName ∈ cachesKeys store →
          cachesKeys (clearOldCache env store).store = [cacheName]) := by
  have hKeys : cachesKeys (clearOldCache env store).store =
      (cachesKeys store).filter (fun key => key == cacheName) := by
    rw [clearOldCache_store]
    simp only [cachesKeys, List.filter_map]
    congr 1
    apply List.filter_congr
    intro e he
    by_cases hk : e.1 = cacheName
    · simp [hk]
    · simp [hk, hDelete e.1 (List.mem_map_of_mem _ he) hk]
  refine ⟨by decide, ?_, ?_, hKeys, ?_⟩
  · intro key
    simp [clearOldCache, deleteEach_trace]
  · simp only [clearOldCache, promiseAll_isFulfilled, deleteEach_isFulfilled]
    intro key hkey
    have hk := List.mem_filter.mp hkey
    exact hDelete key hk.1 (by simpa using hk.2)
  · intro hMem
    rw [hKeys]
    exact filter_beq_of_nodup hNodup hMem

/-- Instance of C7: a stale and the current generation, every deletion succeeds. -/
theorem clearOldCache_deletes_exactly_stale_witness :
    ((∀ key ∈ cachesKeys sampleStore, key ≠ cacheName → onlineEnv.deleteError key = none)
      ∧ (cachesKeys sampleStore).Nodup ∧ cacheName ∈ cachesKeys sampleStore)
      ∧ cachesKeys (clearOldCache onlineEnv sampleStore).store = [cacheName] :=
  ⟨⟨fun _ _ _ => rfl, by decide, by decide⟩,
    (clearOldCache_deletes_exactly_stale onlineEnv sampleStore (fun _ _ _ => rfl)
      (by decide)).2.2.2.2 (by decide)⟩

/-- C8, as stated, fails: when the deletion of one stale cache fails, the promise that
`clearOldCache` returns, which the `activate` listener hands to `waitUntil`, is rejected. -/
theorem onActivate_deletion_failure_counterexample :
    ¬ ∀ (env : Env) (store : CacheStorage), (onActivate env store).result.isFulfilled = true := by
  intro h
  exact absurd (h offlineEnv sampleStore) (by decide)

/-- C8, amended: at activation the deletion of every stale cache is attempted, whichever of them
fail, and the caches left are those whose deletion failed plus the current one; the promise handed
to `waitUntil` is fulfilled exactly when no deletion fails, and rejected otherwise. -/
theorem onActivate_attempts_every_deletion (env : Env) (store : CacheStorage) :
    (∀ key ∈ cachesKeys store, key ≠ cacheName →
        Effect.cachesDelete key ∈ (onActivate env store).trace)
      ∧ (onActivate env store).store =
          store.filter (fun e => e.1 == cacheName || (env.deleteError e.1).isSome)
      ∧ ((onActivate env store).result.isFulfilled = true ↔
          ∀ key ∈ cachesKeys store, key ≠ cacheName → env.deleteError key = none) := by
  refine ⟨?_, clearOldCache_store env store, ?_⟩
  · intro key hkey hne
    simp [onActivate, clearOldCache, deleteEach_trace, hkey, hne]
  · simp only [onActivate, clearOldCache, promiseAll_isFulfilled, deleteEach_isFulfilled,
      List.mem_filter, bne_iff_ne, ne_eq, and_imp]

/-! ## Installation -/

/-- C9: the promise the `install` listener hands to `waitUntil` is fulfilled exactly when every
entry of the manifest is fetched successfully.  When it is fulfilled, the completion line is
logged and the lookup of every manifest entry in the cache named `static::` followed by the
version returns the response stored for it.  When it is rejected, no line is logged and the
lookups in the cache of that name answer as they did before the install: no entry of the install
is committed. -/
theorem onInstall_all_or_nothing (env : Env) (store : CacheStorage) :
    ((onInstall env store).result.isFulfilled = true ↔
        ∀ path ∈ buildContentBlob,
          (fetchedOk (env.fetch ⟨"GET", env.resolve path⟩)).isSome = true)
      ∧ ((onInstall env store).result.isFulfilled = true →
          Effect.log ("Service Worker: cache updated to version: " ++ cacheName)
              ∈ (onInstall env store).trace
            ∧ ∀ path ∈ buildContentBlob, ∃ response,
                fetchedOk (env.fetch ⟨"GET", env.resolve path⟩) = some response
                  ∧ lookupIn (onInstall env store).store cacheName (env.resolve path)
                      = some response)
      ∧ ((onInstall env store).result.isFulfilled = false →
          (∀ msg, Effect.log msg ∉ (onInstall env store).trace)
            ∧ (onInstall env store).store = cachesOpen store cacheName
            ∧ ∀ url, lookupIn (onInstall env store).store cacheName url
                = lookupIn store cacheName url) := by
  have hIff := fetchAll_isSome env buildContentBlob
  cases h : fetchAll env buildContentBlob with
  | none =>
    rw [onInstall_of_none env store h]
    rw [h] at hIff
    refine ⟨?_, ?_, ?_⟩
    · rw [← hIff]
      simp [Settled.isFulfilled]
    · intro hf
      simp [Settled.isFulfilled] at hf
    · intro _
      refine ⟨?_, rfl, fun url => lookupIn_cachesOpen store cacheName url⟩
      intro msg
      simp
  | some entries =>
    rw [onInstall_of_some env store entries h]
    rw [h] at hIff
    refine ⟨?_, ?_, ?_⟩
    · rw [← hIff]
      simp [Settled.isFulfilled]
    · intro _
      refine ⟨by simp, ?_⟩
      intro path hPath
      exact lookupIn_after_addAll env store buildContentBlob entries h path hPath
    · intro hf
      simp [Settled.isFulfilled] at hf

/-- Instances of C9: with every fetch answered 200 the install into an empty storage is
fulfilled and every manifest entry is found in the current cache; with every fetch rejected it is
rejected and the current cache, though opened, holds nothing. -/
theorem onInstall_all_or_nothing_witness :
    ((onInstall onlineEnv []).result.isFulfilled = true
      ∧ ∀ path ∈ buildContentBlob, ∃ response,
          fetchedOk (onlineEnv.fetch ⟨"GET", onlineEnv.resolve path⟩) = some response
            ∧ lookupIn (onInstall onlineEnv []).store cacheName (onlineEnv.resolve path)
                = some response)
      ∧ ((onInstall offlineEnv []).result.isFulfilled = false
        ∧ (onInstall offlineEnv []).store = [(cacheName, [])]) :=
  ⟨⟨by decide, ((onInstall_all_or_nothing onlineEnv []).2.1 (by decide)).2⟩,
    ⟨by decide, (((onInstall_all_or_nothing offlineEnv []).2.2 (by decide)).2.1).trans
      (by decide)⟩⟩

/-- C2: the manifest holds the offline image but not `/offline/`.  After a successful install
into an empty cache storage, an offline GET for the never-cached page `/some/page/` is answered
with `undefined`: the lookup of the fallback key `/offline/` finds nothing. -/
theorem offline_page_not_in_manifest :
    "/assets/default-offline-image.png" ∈ buildContentBlob
      ∧ "/offline/" ∉ buildContentBlob
      ∧ (onInstall onlineEnv []).result = .fulfilled ()
      ∧ offlineAsset ⟨"GET", "https://example.com/some/page/"⟩ = "/offline/"
      ∧ (onFetch offlineEnv (onInstall onlineEnv []).store
          ⟨"GET", "https://example.com/some/page/"⟩).respondWith = some (.fulfilled none) := by
  refine ⟨by decide, by decide, by decide, by decide, by decide⟩

end SW
